import Mathlib

/-!
Verification of the core game logic of the sfml-mining-game repository.

The definitions below are a shallow embedding of the C++ sources:
`src/Ore.cpp`, `src/Inventory.cpp`, `src/Pickaxe.cpp`, `src/Shop.cpp`,
`src/World.cpp` and `src/Player.cpp`.  C++ `int` is modelled as `Int`,
C++ `float` quantities as `ℚ` (all arithmetic on the modelled paths is
exact), `std::map<OreType,int>` as a total function `OreType → Int`
(the constructor initialises every key to 0, and a missing key behaves
exactly like a key holding 0 on every modelled path), and the tile grid
`m_tiles[y][x]` as a total function `Int → Int → Tile`.  Randomness
(`m_dist(m_rng)` and raw `m_rng()` draws) is modelled as two explicit
streams consumed in program order, so every theorem about generation
holds for every possible random sequence.
-/

namespace MiningGame

/-- Embeds `enum class OreType` from `include/Ore.h` (the free-floating-ore
variant spells the constructors in upper case; it is the same closed
four-element enumeration). -/
inductive OreType where
  | Copper
  | Iron
  | Gold
  | Diamond
deriving DecidableEq, Repr

/-- Embeds `Ore::getValue` from `src/Ore.cpp` (lines 96-106): the fixed trade
value table. -/
def getValue : OreType → Int
  | .Copper => 1
  | .Iron => 3
  | .Gold => 8
  | .Diamond => 20

/-- Radius given to each ore kind by the `Ore` constructor in
`src/Ore.cpp` (lines 11-17). -/
def oreRadius : OreType → ℚ
  | .Copper => 8
  | .Iron => 10
  | .Gold => 12
  | .Diamond => 15

/-! ## Inventory (`src/Inventory.cpp`)

`m_oreCounts : std::map<OreType,int>` is modelled as `OreType → Int`;
the constructor sets every ore type to 0, so every key is always
present. -/

/-- The inventory state: count stored for each ore type. -/
abbrev Inv : Type := OreType → Int

/-- Pointwise update of one ore count. -/
def updateCount (inv : Inv) (k : OreType) (v : Int) : Inv :=
  fun k' => if k' = k then v else inv k'

/-- Embeds `Inventory::Inventory()`: all ore types initialised to count 0. -/
def emptyInv : Inv := fun _ => 0

/-- Embeds `Inventory::addOre(const Ore&)`: increments the count of the ore's
type by one. -/
def addOre (inv : Inv) (k : OreType) : Inv :=
  updateCount inv k (inv k + 1)

/-- Embeds `Inventory::addOres(OreType, int)`: adds `quantity` only when
`quantity > 0`, otherwise no change. -/
def addOres (inv : Inv) (k : OreType) (quantity : Int) : Inv :=
  if quantity > 0 then updateCount inv k (inv k + quantity) else inv

/-- Embeds `Inventory::removeOres(OreType, int)`: returns `true` with no change
for `quantity <= 0`; returns `false` with no change when the stored
count is below `quantity`; otherwise deducts and returns `true`. -/
def removeOres (inv : Inv) (k : OreType) (quantity : Int) : Bool × Inv :=
  if quantity ≤ 0 then (true, inv)
  else if inv k < quantity then (false, inv)
  else (true, updateCount inv k (inv k - quantity))

/-- Embeds `Inventory::getOreCount`. -/
def getOreCount (inv : Inv) (k : OreType) : Int := inv k

/-- Embeds `Inventory::clear()`: every count reset to 0. -/
def clearInv (_ : Inv) : Inv := fun _ => 0

/-- The mutating operations of the `Inventory` interface. -/
inductive InvOp where
  | opAddOre (k : OreType)
  | opAddOres (k : OreType) (q : Int)
  | opRemoveOres (k : OreType) (q : Int)
  | opClear

/-- Effect of one `Inventory` operation on the stored counts. -/
def applyInvOp (inv : Inv) : InvOp → Inv
  | .opAddOre k => addOre inv k
  | .opAddOres k q => addOres inv k q
  | .opRemoveOres k q => (removeOres inv k q).2
  | .opClear => clearInv inv

/-! ## Pickaxe (`src/Pickaxe.cpp`) -/

/-- Embeds `enum class PickaxeTier` from `include/Pickaxe.h`. -/
inductive PickaxeTier where
  | Wood
  | Stone
  | Iron
  | Gold
  | Diamond
deriving DecidableEq, Repr

/-- Position of a tier in the Wood..Diamond progression (used to state
"advances by exactly one step"). -/
def tierIdx : PickaxeTier → Nat
  | .Wood => 0
  | .Stone => 1
  | .Iron => 2
  | .Gold => 3
  | .Diamond => 4

/-- Embeds `PickaxeUtils::getNextTier`. -/
def getNextTier : PickaxeTier → PickaxeTier
  | .Wood => .Stone
  | .Stone => .Iron
  | .Iron => .Gold
  | .Gold => .Diamond
  | .Diamond => .Diamond

/-- Embeds `Pickaxe::canUpgrade`: true unless the tier is Diamond. -/
def canUpgrade (t : PickaxeTier) : Bool :=
  t ≠ PickaxeTier.Diamond

/-- Embeds `struct UpgradeRecipe` from `include/Pickaxe.h`. -/
structure UpgradeRecipe where
  oreType : OreType
  quantity : Int
deriving DecidableEq, Repr

/-- Embeds `Pickaxe::getRecipeForUpgrade` (lines 149-184): the fixed recipe
table, keyed by the destination tier (`fromTier` is unused in the
source). -/
def getRecipeForUpgrade (toTier : PickaxeTier) : List UpgradeRecipe :=
  match toTier with
  | .Stone => [⟨.Copper, 5⟩]
  | .Iron => [⟨.Copper, 8⟩, ⟨.Iron, 3⟩]
  | .Gold => [⟨.Iron, 5⟩, ⟨.Gold, 2⟩]
  | .Diamond => [⟨.Gold, 3⟩, ⟨.Diamond, 1⟩]
  | .Wood => []

/-- Embeds `Pickaxe::getUpgradeRecipe`: recipe for the next tier. -/
def getUpgradeRecipe (t : PickaxeTier) : List UpgradeRecipe :=
  getRecipeForUpgrade (getNextTier t)

/-- Embeds `Pickaxe::getUpgradeCost` (lines 77-92): 0 when no upgrade exists,
otherwise the sum of `value * quantity` over the recipe. -/
def getUpgradeCost (t : PickaxeTier) : Int :=
  if !canUpgrade t then 0
  else (getUpgradeRecipe t).foldl
    (fun acc ing => acc + getValue ing.oreType * ing.quantity) 0

/-- The availability check loop of `Pickaxe::attemptUpgrade`
(lines 111-116): every recipe line must be covered (a missing map key
behaves as count 0, which is below every positive recipe quantity). -/
def recipeSatisfied (recipe : List UpgradeRecipe) (avail : OreType → Int) : Bool :=
  recipe.all (fun ing => !(avail ing.oreType < ing.quantity))

/-- The consumption loop of `Pickaxe::attemptUpgrade` (lines 119-121):
deduct every recipe line. -/
def consumeRecipe (recipe : List UpgradeRecipe) (avail : OreType → Int) : OreType → Int :=
  recipe.foldl (fun a ing => updateCount a ing.oreType (a ing.oreType - ing.quantity)) avail

/-- Embeds `Pickaxe::attemptUpgrade` (lines 103-128): returns the success flag
together with the new tier and the new ore map. -/
def attemptUpgrade (t : PickaxeTier) (avail : OreType → Int) :
    Bool × PickaxeTier × (OreType → Int) :=
  if !canUpgrade t then (false, t, avail)
  else if recipeSatisfied (getUpgradeRecipe t) avail then
    (true, getNextTier t, consumeRecipe (getUpgradeRecipe t) avail)
  else (false, t, avail)

/-! ## Shop (`src/Shop.cpp`) -/

/-- Embeds `Shop::UpgradeCost` from `include/Shop.h`: one ore quantity per
kind. -/
structure UpgradeCost where
  copper : Int
  iron : Int
  gold : Int
  diamond : Int
deriving DecidableEq, Repr

/-- Embeds `Shop::getSpeedUpgradeCost` (lines 146-156): cost of the next speed
upgrade, keyed by the current level. -/
def getSpeedUpgradeCost (speedUpgradeLevel : Int) : UpgradeCost :=
  if speedUpgradeLevel = 0 then ⟨10, 0, 0, 0⟩
  else if speedUpgradeLevel = 1 then ⟨20, 5, 0, 0⟩
  else if speedUpgradeLevel = 2 then ⟨50, 15, 3, 0⟩
  else if speedUpgradeLevel = 3 then ⟨100, 30, 10, 1⟩
  else ⟨200, 50, 20, 2⟩

/-- Embeds `Shop::getRangeUpgradeCost` (lines 158-167). -/
def getRangeUpgradeCost (rangeUpgradeLevel : Int) : UpgradeCost :=
  if rangeUpgradeLevel = 0 then ⟨15, 0, 0, 0⟩
  else if rangeUpgradeLevel = 1 then ⟨30, 8, 0, 0⟩
  else if rangeUpgradeLevel = 2 then ⟨60, 20, 5, 0⟩
  else if rangeUpgradeLevel = 3 then ⟨120, 40, 15, 2⟩
  else ⟨250, 75, 30, 5⟩

/-- Embeds `Shop::getMultiplierUpgradeCost` (lines 169-178). -/
def getMultiplierUpgradeCost (multiplierUpgradeLevel : Int) : UpgradeCost :=
  if multiplierUpgradeLevel = 0 then ⟨25, 5, 0, 0⟩
  else if multiplierUpgradeLevel = 1 then ⟨50, 15, 3, 0⟩
  else if multiplierUpgradeLevel = 2 then ⟨100, 40, 12, 1⟩
  else if multiplierUpgradeLevel = 3 then ⟨200, 80, 25, 3⟩
  else ⟨400, 150, 50, 10⟩

/-- Componentwise comparison of two shop costs: no ore component of `a`
exceeds that of `b`. -/
def costLE (a b : UpgradeCost) : Prop :=
  a.copper ≤ b.copper ∧ a.iron ≤ b.iron ∧ a.gold ≤ b.gold ∧ a.diamond ≤ b.diamond

instance (a b : UpgradeCost) : Decidable (costLE a b) := by
  unfold costLE
  infer_instance

/-! ## Proximity mining (`Ore::isWithinRange`, `src/Ore.cpp` lines 123-133)

The source computes `std::sqrt(dx*dx + dy*dy)` on `float`s; the model
uses exact real arithmetic, the idealisation the spec describes. -/

/-- Embeds `Ore::isWithinRange`: the Euclidean distance from `point` to the
ore's `position` must not exceed `range + radius`. -/
def isWithinRange (posX posY radius pointX pointY range : ℝ) : Prop :=
  let dx := pointX - posX
  let dy := pointY - posY
  Real.sqrt (dx * dx + dy * dy) ≤ range + radius

/-! ## World (`src/World.cpp`, `include/World.h`) -/

/-- Embeds `enum class TileType` from `include/World.h`. -/
inductive TileType where
  | Air
  | Stone
  | Dirt
  | Bedrock
  | OreCopper
  | OreIron
  | OreGold
  | OreDiamond
deriving DecidableEq, Repr

/-- Embeds `struct Tile` from `include/World.h`, without the render-only
`color` field (excluded from the spec's scope). -/
structure Tile where
  type : TileType
  hardness : ℚ
  isSolid : Bool
deriving DecidableEq, Repr

/-- Embeds `World::WORLD_WIDTH`. -/
def WORLD_WIDTH : Int := 100

/-- Embeds `World::WORLD_HEIGHT`. -/
def WORLD_HEIGHT : Int := 50

/-- Embeds `World::isValidCoordinate` (lines 389-391). -/
def isValidCoordinate (x y : Int) : Bool :=
  decide (0 ≤ x) && decide (x < WORLD_WIDTH) && decide (0 ≤ y) && decide (y < WORLD_HEIGHT)

/-- Embeds `World::getTileProperties` (lines 355-384).  The hardness of
`OreCopper` is the exact value of the `float` literal `1.2f`,
`5033165 / 2^22`; every other hardness literal is exact in `float`. -/
def getTileProperties : TileType → Tile
  | .Air => ⟨.Air, 0, false⟩
  | .Dirt => ⟨.Dirt, 1/2, true⟩
  | .Stone => ⟨.Stone, 1, true⟩
  | .Bedrock => ⟨.Bedrock, 1000, true⟩
  | .OreCopper => ⟨.OreCopper, 5033165 / 4194304, true⟩
  | .OreIron => ⟨.OreIron, 3/2, true⟩
  | .OreGold => ⟨.OreGold, 2, true⟩
  | .OreDiamond => ⟨.OreDiamond, 3, true⟩

/-- The tile grid `m_tiles`: `grid x y` is `m_tiles[y][x]`. -/
abbrev Grid : Type := Int → Int → Tile

/-- Writing one cell of the grid. -/
def setTile (g : Grid) (x y : Int) (t : Tile) : Grid :=
  fun x' y' => if x' = x ∧ y' = y then t else g x' y'

/-- Embeds `World::getTileType` (lines 170-175): out-of-bounds reads as
Bedrock. -/
def getTileType (g : Grid) (x y : Int) : TileType :=
  if isValidCoordinate x y then (g x y).type else .Bedrock

/-- Embeds `World::isTileSolid` (lines 180-185): out-of-bounds is solid. -/
def isTileSolid (g : Grid) (x y : Int) : Bool :=
  if isValidCoordinate x y then (g x y).isSolid else true

/-- The `switch (tile.type)` of `World::mineTile` (lines 133-152):
which ore a mined tile drops. -/
def oreDrop : TileType → Option OreType
  | .OreCopper => some .Copper
  | .OreIron => some .Iron
  | .OreGold => some .Gold
  | .OreDiamond => some .Diamond
  | _ => none

/-- Embeds `World::mineTile` (lines 112-165): returns the dropped ore (if any)
and the updated grid. -/
def mineTile (g : Grid) (x y : Int) (pickaxePower : ℚ) : Option OreType × Grid :=
  if !isValidCoordinate x y then (none, g)
  else
    let tile := g x y
    if tile.type = .Air ∨ tile.type = .Bedrock then (none, g)
    else if pickaxePower < tile.hardness * (1/2) then (none, g)
    else (oreDrop tile.type, setTile g x y (getTileProperties .Air))

/-- The tile kind holding a given ore kind (used to state the
"matching kind" part of the mining claim). -/
def tileOfOre : OreType → TileType
  | .Copper => .OreCopper
  | .Iron => .OreIron
  | .Gold => .OreGold
  | .Diamond => .OreDiamond

/-- Embeds `Player::attemptMining` (src/Player.cpp lines 188-219): pre-checks
the target tile, mines it, and delivers any dropped ore to the player's
inventory via `Inventory::addOre`. -/
def attemptMining (g : Grid) (inv : Inv) (x y : Int) (pickaxePower : ℚ) :
    Grid × Inv :=
  let tileType := getTileType g x y
  if tileType = .Air then (g, inv)
  else if tileType = .Bedrock then (g, inv)
  else
    match mineTile g x y pickaxePower with
    | (some k, g') => (g', addOre inv k)
    | (none, g') => (g', inv)

/-! ## Terrain generation (`src/World.cpp` lines 213-347)

Randomness is modelled by two explicit streams: `floats` for the
`m_dist(m_rng)` draws in `[0,1)` and `nats` for the raw `m_rng()`
draws, each consumed in program order.  Every generation theorem below
is quantified over all streams. -/

/-- The random source `m_rng` / `m_dist` with its two draw streams. -/
structure Rng where
  floats : Nat → ℚ
  nats : Nat → Nat
  fIdx : Nat
  nIdx : Nat

/-- One `m_dist(m_rng)` draw. -/
def Rng.nextFloat (r : Rng) : ℚ × Rng :=
  (r.floats r.fIdx, { r with fIdx := r.fIdx + 1 })

/-- One raw `m_rng()` draw. -/
def Rng.nextNat (r : Rng) : Nat × Rng :=
  (r.nats r.nIdx, { r with nIdx := r.nIdx + 1 })

/-- Generation state: the tile grid together with the random source. -/
structure GenState where
  grid : Grid
  rng : Rng

/-- The integer loop indices `0 .. n-1`. -/
def intRange (n : Nat) : List Int :=
  (List.range n).map (fun (i : Nat) => (i : Int))

/-- The body of the first (layered fill) pass of
`World::generateTerrain` (lines 217-241) for one cell; note that for
`y < 3` the `m_dist(m_rng)` draw happens only when `y == 2`
(short-circuit `&&`). -/
def fillCell (y x : Int) (s : GenState) : GenState :=
  if y < 3 then
    if y = 2 then
      let (f, r) := s.rng.nextFloat
      if f < 7/10 then ⟨setTile s.grid x y (getTileProperties .Dirt), r⟩
      else ⟨setTile s.grid x y (getTileProperties .Air), r⟩
    else ⟨setTile s.grid x y (getTileProperties .Air), s.rng⟩
  else if y < 8 then
    let (f, r) := s.rng.nextFloat
    if f < 4/5 then ⟨setTile s.grid x y (getTileProperties .Dirt), r⟩
    else ⟨setTile s.grid x y (getTileProperties .Stone), r⟩
  else if y < WORLD_HEIGHT - 2 then ⟨setTile s.grid x y (getTileProperties .Stone), s.rng⟩
  else ⟨setTile s.grid x y (getTileProperties .Bedrock), s.rng⟩

/-- Inner `x` loop of the layered fill. -/
def fillRow (y : Int) (s : GenState) : GenState :=
  (intRange 100).foldl (fun s x => fillCell y x s) s

/-- The full layered-fill pass (outer `y` loop). -/
def layeredFill (s : GenState) : GenState :=
  (intRange 50).foldl (fun s y => fillRow y s) s

/-- Embeds `std::max(lo, std::min(hi, v))` as used to clamp the cave walk. -/
def clampInt (lo hi v : Int) : Int := max lo (min hi v)

/-- Offsets `-r .. r` for a room of radius `r`. -/
def offsets (r : Nat) : List Int :=
  (List.range (2 * r + 1)).map (fun (i : Nat) => (i : Int) - (r : Int))

/-- One cell of cave carving (`World::generateCaves` lines 318-331):
only valid, non-Bedrock cells are touched, and the 80% air draw happens
only inside that guard. -/
def carveCell (cx cy dy dx : Int) (s : GenState) : GenState :=
  let nx := cx + dx
  let ny := cy + dy
  if isValidCoordinate nx ny && !((s.grid nx ny).type = .Bedrock) then
    let (f, r) := s.rng.nextFloat
    if f < 4/5 then ⟨setTile s.grid nx ny (getTileProperties .Air), r⟩
    else ⟨s.grid, r⟩
  else s

/-- Carve the room of radius `roomSize` around the current walk
position (the nested `dy`/`dx` loops). -/
def carveRoom (cx cy : Int) (roomSize : Nat) (s : GenState) : GenState :=
  (offsets roomSize).foldl
    (fun s dy => (offsets roomSize).foldl (fun s dx => carveCell cx cy dy dx s) s) s

/-- One step of the cave random walk (`World::generateCaves`
lines 314-345): draw a room size, carve, draw a direction, move and
clamp. -/
def caveWalkStep (st : Int × Int × GenState) (_ : Nat) : Int × Int × GenState :=
  let cx := st.1
  let cy := st.2.1
  let s := st.2.2
  let (rs, r1) := s.rng.nextNat
  let roomSize := 1 + rs % 3
  let s1 := carveRoom cx cy roomSize ⟨s.grid, r1⟩
  let (d, r2) := s1.rng.nextNat
  let next : Int × Int :=
    if d % 4 = 0 then (cx + 1, cy)
    else if d % 4 = 1 then (cx - 1, cy)
    else if d % 4 = 2 then (cx, cy + 1)
    else (cx, cy - 1)
  (clampInt 1 (WORLD_WIDTH - 2) next.1, clampInt 8 (WORLD_HEIGHT - 3) next.2,
    ⟨s1.grid, r2⟩)

/-- One cave system (`World::generateCaves` lines 303-346): random
start in the underground band, then a random walk of 20-50 steps. -/
def caveSystem (s : GenState) (_ : Nat) : GenState :=
  let (sx, r1) := s.rng.nextNat
  let startX : Int := (sx % 100 : Nat)
  let (sy, r2) := r1.nextNat
  let startY : Int := ((8 + sy % 35 : Nat) : Nat)
  let (cl, r3) := r2.nextNat
  let caveLength := 20 + cl % 30
  let st := (List.range caveLength).foldl caveWalkStep (startX, startY, ⟨s.grid, r3⟩)
  st.2.2

/-- Embeds `World::generateCaves` (lines 299-347): 8-12 cave systems. -/
def generateCaves (s : GenState) : GenState :=
  let (nc, r1) := s.rng.nextNat
  let numCaves := 8 + nc % 5
  (List.range numCaves).foldl caveSystem ⟨s.grid, r1⟩

/-- One neighbour of a vein seed (`World::placeOres` lines 275-285):
only valid Stone cells are converted, and the 40% draw happens only
inside that guard. -/
def veinCell (oreType : TileType) (x y dy dx : Int) (s : GenState) : GenState :=
  let nx := x + dx
  let ny := y + dy
  if isValidCoordinate nx ny && decide ((s.grid nx ny).type = .Stone) then
    let (f, r) := s.rng.nextFloat
    if f < 2/5 then ⟨setTile s.grid nx ny (getTileProperties oreType), r⟩
    else ⟨s.grid, r⟩
  else s

/-- The body of `World::placeOres` (lines 264-288) for one cell: only
Stone cells are considered; a successful depth-scaled draw places the
ore and, with 30% probability, seeds a vein in the 8 neighbours. -/
def placeOreCell (oreType : TileType) (rarity : ℚ) (minDepth y x : Int)
    (s : GenState) : GenState :=
  if (s.grid x y).type = .Stone then
    let depthFactor : ℚ := 1 + (y - minDepth) * (1/20)
    let adjustedRarity := rarity * depthFactor
    let (f, r1) := s.rng.nextFloat
    if f < adjustedRarity then
      let s1 : GenState := ⟨setTile s.grid x y (getTileProperties oreType), r1⟩
      let (f2, r2) := s1.rng.nextFloat
      if f2 < 3/10 then
        (offsets 1).foldl
          (fun s dy => (offsets 1).foldl (fun s dx => veinCell oreType x y dy dx s) s)
          ⟨s1.grid, r2⟩
      else ⟨s1.grid, r2⟩
    else ⟨s.grid, r1⟩
  else s

/-- The inclusive row range `minDepth .. maxDepth` of the outer
`placeOres` loop. -/
def rowRange (lo hi : Int) : List Int :=
  (List.range (hi - lo + 1).toNat).map (fun (i : Nat) => lo + (i : Int))

/-- Embeds `World::placeOres` (lines 261-291). -/
def placeOres (oreType : TileType) (rarity : ℚ) (minDepth maxDepth : Int)
    (s : GenState) : GenState :=
  (rowRange minDepth maxDepth).foldl
    (fun s y => (intRange 100).foldl
      (fun s x => placeOreCell oreType rarity minDepth y x s) s) s

/-- Embeds `World::generateTerrain` (lines 213-253): layered fill, then caves,
then the four ore passes in fixed order.  The rarity literals are the
rationals written in the source (`0.15`, `0.08`, `0.03`, `0.008`). -/
def generateTerrain (s : GenState) : GenState :=
  let s1 := layeredFill s
  let s2 := generateCaves s1
  let s3 := placeOres .OreCopper (3/20) 5 (WORLD_HEIGHT - 5) s2
  let s4 := placeOres .OreIron (2/25) 10 (WORLD_HEIGHT - 5) s3
  let s5 := placeOres .OreGold (3/100) 15 (WORLD_HEIGHT - 5) s4
  placeOres .OreDiamond (1/125) 25 (WORLD_HEIGHT - 5) s5

/-! ## General helper lemmas -/

/-- A predicate preserved by every step of a fold is preserved by the
whole fold. -/
theorem foldl_pres {α σ : Type _} (P : σ → Prop) (f : σ → α → σ) (l : List α)
    (h : ∀ s a, a ∈ l → P s → P (f s a)) :
    ∀ s, P s → P (l.foldl f s) := by
  induction l with
  | nil => intro s hs; simpa using hs
  | cons a t ih =>
    intro s hs
    simp only [List.foldl_cons]
    exact ih (fun s b hb hP => h s b (List.mem_cons_of_mem _ hb) hP) _
      (h s a (List.mem_cons_self _ _) hs)

/-- A predicate established by the step at `x0` and preserved by every
step holds after a fold over any list containing `x0`. -/
theorem foldl_estab {α σ : Type _} (P : σ → Prop) (f : σ → α → σ) (x0 : α)
    (hset : ∀ s, P (f s x0)) (hpres : ∀ s a, P s → P (f s a)) :
    ∀ (l : List α) (s : σ), x0 ∈ l → P (l.foldl f s) := by
  intro l
  induction l with
  | nil => intro s h; cases h
  | cons a t ih =>
    intro s hmem
    rcases List.mem_cons.mp hmem with heq | ht
    · subst heq
      simp only [List.foldl_cons]
      exact foldl_pres P f t (fun s b _ hP => hpres s b hP) _ (hset s)
    · simp only [List.foldl_cons]
      exact ih _ ht

/-- Updating one count leaves the updated key at the new value. -/
theorem updateCount_self (inv : Inv) (k : OreType) (v : Int) :
    updateCount inv k v k = v := by
  simp [updateCount]

/-- Updating one count leaves every other key unchanged. -/
theorem updateCount_other (inv : Inv) (k : OreType) (v : Int) (k' : OreType)
    (h : k' ≠ k) : updateCount inv k v k' = inv k' := by
  simp [updateCount, h]

/-- Writing one tile leaves every other cell unchanged. -/
theorem setTile_other (g : Grid) (x y : Int) (t : Tile) (x0 y0 : Int)
    (h : ¬(x0 = x ∧ y0 = y)) : setTile g x y t x0 y0 = g x0 y0 := by
  simp only [setTile, if_neg h]

/-- Writing one tile puts the new tile at the written cell. -/
theorem setTile_self (g : Grid) (x y : Int) (t : Tile) :
    setTile g x y t x y = t := by
  simp [setTile]

/-! ## Claim theorems -/

/-- C6: the trade values of the four ore kinds are the fixed table
{Copper: 1, Iron: 3, Gold: 8, Diamond: 20}, and the values are strictly
increasing in the fixed rarity order Copper < Iron < Gold < Diamond. -/
theorem ore_values_fixed_and_increasing :
    getValue .Copper = 1 ∧ getValue .Iron = 3 ∧ getValue .Gold = 8 ∧
    getValue .Diamond = 20 ∧
    getValue .Copper < getValue .Iron ∧ getValue .Iron < getValue .Gold ∧
    getValue .Gold < getValue .Diamond := by
  decide

/-- C5: the upgrade recipe table is exactly the fixed table, `canUpgrade`
holds exactly off the Diamond tier, and `getUpgradeCost` is 0 at Diamond
and otherwise the sum of value times quantity over the next tier's
recipe lines. -/
theorem upgrade_table_and_cost :
    getRecipeForUpgrade .Stone = [⟨.Copper, 5⟩] ∧
    getRecipeForUpgrade .Iron = [⟨.Copper, 8⟩, ⟨.Iron, 3⟩] ∧
    getRecipeForUpgrade .Gold = [⟨.Iron, 5⟩, ⟨.Gold, 2⟩] ∧
    getRecipeForUpgrade .Diamond = [⟨.Gold, 3⟩, ⟨.Diamond, 1⟩] ∧
    (∀ t : PickaxeTier, canUpgrade t = true ↔ t ≠ PickaxeTier.Diamond) ∧
    getUpgradeCost .Diamond = 0 ∧
    (∀ t : PickaxeTier, t ≠ PickaxeTier.Diamond →
      getUpgradeCost t =
        ((getUpgradeRecipe t).map (fun ing => getValue ing.oreType * ing.quantity)).sum) := by
  refine ⟨rfl, rfl, rfl, rfl, ?_, rfl, ?_⟩
  · intro t; cases t <;> decide
  · intro t ht; cases t <;> first | decide | exact absurd rfl ht

/-- Witness for C5 at the Wood tier. -/
theorem upgrade_table_and_cost_witness :
    (canUpgrade .Wood = true ↔ PickaxeTier.Wood ≠ PickaxeTier.Diamond) ∧
    getUpgradeCost .Wood =
      ((getUpgradeRecipe .Wood).map (fun ing => getValue ing.oreType * ing.quantity)).sum :=
  ⟨upgrade_table_and_cost.2.2.2.2.1 .Wood,
   upgrade_table_and_cost.2.2.2.2.2.2 .Wood (by decide)⟩

/-- C2: with a non-negative stored count, `removeOres` returns false and
changes nothing when the request exceeds the count, and for a positive
request within the count it deducts exactly the request from that kind,
leaves every other kind unchanged, and returns true. -/
theorem removeOres_atomic (inv : Inv) (k : OreType) (n : Int) (hnn : 0 ≤ inv k) :
    (inv k < n → removeOres inv k n = (false, inv)) ∧
    (0 < n → n ≤ inv k →
      (removeOres inv k n).1 = true ∧
      (removeOres inv k n).2 k = inv k - n ∧
      (∀ k', k' ≠ k → (removeOres inv k n).2 k' = inv k')) := by
  constructor
  · intro hlt
    have hn : ¬ n ≤ 0 := by omega
    simp [removeOres, hn, hlt]
  · intro hpos hle
    have hn : ¬ n ≤ 0 := by omega
    have hlt : ¬ inv k < n := by omega
    refine ⟨by simp [removeOres, hn, hlt], ?_, ?_⟩
    · simp [removeOres, hn, hlt, updateCount_self]
    · intro k' hk'
      simp [removeOres, hn, hlt, updateCount_other _ _ _ _ hk']

/-- Witness for C2 on an inventory holding 3 of every kind. -/
theorem removeOres_atomic_witness :
    removeOres (fun _ => 3) .Copper 5 = (false, fun _ => 3) ∧
    (removeOres (fun _ => 3) .Copper 2).1 = true ∧
    (removeOres (fun _ => 3) .Copper 2).2 .Copper = 3 - 2 ∧
    (removeOres (fun _ => 3) .Copper 2).2 .Iron = 3 :=
  ⟨(removeOres_atomic (fun _ => 3) .Copper 5 (by decide)).1 (by decide),
   ((removeOres_atomic (fun _ => 3) .Copper 2 (by decide)).2 (by decide) (by decide)).1,
   ((removeOres_atomic (fun _ => 3) .Copper 2 (by decide)).2 (by decide) (by decide)).2.1,
   ((removeOres_atomic (fun _ => 3) .Copper 2 (by decide)).2 (by decide) (by decide)).2.2
     .Iron (by decide)⟩

/-- C10: a non-positive quantity is a no-op for `addOres`, a successful
no-op for `removeOres`, and every `Inventory` operation preserves
non-negativity of all counts. -/
theorem inventory_nonpositive_noop_and_nonneg (inv : Inv) (k : OreType) (q : Int)
    (op : InvOp) (hq : q ≤ 0) (hnn : ∀ j, 0 ≤ inv j) :
    addOres inv k q = inv ∧
    removeOres inv k q = (true, inv) ∧
    (∀ j, 0 ≤ applyInvOp inv op j) := by
  have hq' : ¬ q > 0 := by omega
  refine ⟨by simp [addOres, hq'], by simp [removeOres, hq], ?_⟩
  intro j
  cases op with
  | opAddOre k' =>
    simp only [applyInvOp, addOre, updateCount]
    split
    · have := hnn k'; omega
    · exact hnn j
  | opAddOres k' q' =>
    simp only [applyInvOp, addOres]
    split
    · simp only [updateCount]
      split
      · have := hnn k'; omega
      · exact hnn j
    · exact hnn j
  | opRemoveOres k' q' =>
    simp only [applyInvOp, removeOres]
    split
    · exact hnn j
    · split
      · exact hnn j
      · simp only [updateCount]
        split
        · have := hnn k'; omega
        · exact hnn j
  | opClear => simp [applyInvOp, clearInv]

/-- Witness for C10 on the empty inventory with quantity -1. -/
theorem inventory_nonpositive_noop_and_nonneg_witness :
    addOres (fun _ => 0) .Copper (-1) = (fun _ => 0) ∧
    removeOres (fun _ => 0) .Copper (-1) = (true, fun _ => 0) ∧
    (∀ j, 0 ≤ applyInvOp (fun _ => 0) (.opRemoveOres .Iron 2) j) :=
  inventory_nonpositive_noop_and_nonneg (fun _ => 0) .Copper (-1)
    (.opRemoveOres .Iron 2) (by decide) (fun _ => le_refl 0)

/-- The availability check of `attemptUpgrade` succeeds exactly when
every recipe line is covered. -/
theorem recipeSatisfied_iff (r : List UpgradeRecipe) (a : OreType → Int) :
    recipeSatisfied r a = true ↔ ∀ ing ∈ r, ing.quantity ≤ a ing.oreType := by
  simp [recipeSatisfied, List.all_eq_true, not_lt]

/-- Consuming a recipe leaves every kind absent from the recipe
unchanged. -/
theorem consumeRecipe_not_mem (r : List UpgradeRecipe) (a : OreType → Int)
    (k : OreType) (hk : ∀ ing ∈ r, ing.oreType ≠ k) :
    consumeRecipe r a k = a k := by
  induction r generalizing a with
  | nil => rfl
  | cons i tl ih =>
    simp only [consumeRecipe, List.foldl_cons] at *
    rw [ih _ (fun ing h => hk ing (List.mem_cons_of_mem _ h))]
    exact updateCount_other _ _ _ _
      (Ne.symm (hk i (List.mem_cons_self _ _)))

/-- Consuming a recipe whose kinds are pairwise distinct deducts exactly
each line's quantity from its kind. -/
theorem consumeRecipe_mem (r : List UpgradeRecipe) (a : OreType → Int)
    (hnd : (r.map (·.oreType)).Nodup) :
    ∀ ing ∈ r, consumeRecipe r a ing.oreType = a ing.oreType - ing.quantity := by
  induction r generalizing a with
  | nil => intro ing h; cases h
  | cons i tl ih =>
    intro ing hing
    have hhead : ∀ ing' ∈ tl, ing'.oreType ≠ i.oreType := by
      intro ing' h' heq
      have : i.oreType ∈ tl.map (·.oreType) := heq ▸ List.mem_map_of_mem _ h'
      exact (List.nodup_cons.mp hnd).1 this
    rcases List.mem_cons.mp hing with heq | htl
    · subst heq
      simp only [consumeRecipe, List.foldl_cons]
      have hskip := consumeRecipe_not_mem tl
        (updateCount a ing.oreType (a ing.oreType - ing.quantity)) ing.oreType hhead
      simp only [consumeRecipe] at hskip
      rw [hskip]
      exact updateCount_self _ _ _
    · simp only [consumeRecipe, List.foldl_cons]
      have := ih (updateCount a i.oreType (a i.oreType - i.quantity))
        (List.nodup_cons.mp hnd).2 ing htl
      simp only [consumeRecipe] at this
      rw [this, updateCount_other _ _ _ _ (hhead ing htl)]

/-- C1: `attemptUpgrade` is all-or-nothing: a short recipe line means
failure with tier and ore map untouched; a fully covered recipe means
success, deduction of exactly each line from its kind (all other kinds
untouched), and a tier advance of exactly one step. -/
theorem attemptUpgrade_all_or_nothing (t : PickaxeTier) (avail : OreType → Int) :
    ((∃ ing ∈ getUpgradeRecipe t, avail ing.oreType < ing.quantity) →
      attemptUpgrade t avail = (false, t, avail)) ∧
    (t ≠ PickaxeTier.Diamond →
      (∀ ing ∈ getUpgradeRecipe t, ing.quantity ≤ avail ing.oreType) →
      (attemptUpgrade t avail).1 = true ∧
      (attemptUpgrade t avail).2.1 = getNextTier t ∧
      tierIdx (getNextTier t) = tierIdx t + 1 ∧
      (∀ ing ∈ getUpgradeRecipe t,
        (attemptUpgrade t avail).2.2 ing.oreType = avail ing.oreType - ing.quantity) ∧
      (∀ k : OreType, (∀ ing ∈ getUpgradeRecipe t, ing.oreType ≠ k) →
        (attemptUpgrade t avail).2.2 k = avail k)) := by
  constructor
  · rintro ⟨ing, hmem, hlt⟩
    have hsat : recipeSatisfied (getUpgradeRecipe t) avail = false := by
      rcases Bool.eq_false_or_eq_true (recipeSatisfied (getUpgradeRecipe t) avail) with h | h
      · exact absurd ((recipeSatisfied_iff _ _).mp h ing hmem) (by omega)
      · exact h
    cases hc : canUpgrade t <;> simp [attemptUpgrade, hc, hsat]
  · intro hne hall
    have hc : canUpgrade t = true := by
      cases t <;> simp_all [canUpgrade]
    have hs : recipeSatisfied (getUpgradeRecipe t) avail = true :=
      (recipeSatisfied_iff _ _).mpr hall
    have hres : attemptUpgrade t avail =
        (true, getNextTier t, consumeRecipe (getUpgradeRecipe t) avail) := by
      simp [attemptUpgrade, hc, hs]
    have hnd : ((getUpgradeRecipe t).map (·.oreType)).Nodup := by
      cases t <;> decide
    have hidx : tierIdx (getNextTier t) = tierIdx t + 1 := by
      cases t <;> first | rfl | exact absurd rfl hne
    rw [hres]
    exact ⟨rfl, rfl, hidx,
      fun ing h => consumeRecipe_mem _ avail hnd ing h,
      fun k hk => consumeRecipe_not_mem _ avail k hk⟩

/-- Witness for C1: from Wood with Copper 5 the upgrade succeeds, the
tier becomes Stone and Copper becomes 0; with no ores it fails with no
change. -/
theorem attemptUpgrade_all_or_nothing_witness :
    (attemptUpgrade .Wood (fun k => if k = .Copper then 5 else 0)).1 = true ∧
    (attemptUpgrade .Wood (fun k => if k = .Copper then 5 else 0)).2.1 = .Stone ∧
    (attemptUpgrade .Wood (fun k => if k = .Copper then 5 else 0)).2.2 .Copper = 0 ∧
    attemptUpgrade .Wood (fun _ => 0) = (false, .Wood, fun _ => 0) := by
  have h := (attemptUpgrade_all_or_nothing .Wood
    (fun k => if k = .Copper then 5 else 0)).2 (by decide) (by decide)
  have hfail := (attemptUpgrade_all_or_nothing .Wood (fun _ => 0)).1
    ⟨⟨.Copper, 5⟩, by decide, by decide⟩
  refine ⟨h.1, h.2.1, ?_, hfail⟩
  have := h.2.2.2.1 ⟨.Copper, 5⟩ (by decide)
  rw [this]
  decide

/-- C7: for each of the three shop upgrade tracks, the cost at level
L+1 is at least the cost at level L in every ore component. -/
theorem shop_cost_monotone (L : Int) (hL : 0 ≤ L) :
    costLE (getSpeedUpgradeCost L) (getSpeedUpgradeCost (L + 1)) ∧
    costLE (getRangeUpgradeCost L) (getRangeUpgradeCost (L + 1)) ∧
    costLE (getMultiplierUpgradeCost L) (getMultiplierUpgradeCost (L + 1)) := by
  by_cases h0 : L = 0
  · subst h0; decide
  by_cases h1 : L = 1
  · subst h1; decide
  by_cases h2 : L = 2
  · subst h2; decide
  by_cases h3 : L = 3
  · subst h3; decide
  have e0 : ¬ L + 1 = 0 := by omega
  have e1 : ¬ L + 1 = 1 := by omega
  have e2 : ¬ L + 1 = 2 := by omega
  have e3 : ¬ L + 1 = 3 := by omega
  simp [getSpeedUpgradeCost, getRangeUpgradeCost, getMultiplierUpgradeCost,
    h0, h1, h2, h3, e0, e1, e2, e3, costLE]

/-- Witness for C7 at level 0. -/
theorem shop_cost_monotone_witness :
    costLE (getSpeedUpgradeCost 0) (getSpeedUpgradeCost (0 + 1)) ∧
    costLE (getRangeUpgradeCost 0) (getRangeUpgradeCost (0 + 1)) ∧
    costLE (getMultiplierUpgradeCost 0) (getMultiplierUpgradeCost (0 + 1)) :=
  shop_cost_monotone 0 (by decide)

/-- C8: out-of-bounds coordinates read as Bedrock, count as solid, and
cannot be mined (no ore, world unchanged); all three operations are
total. -/
theorem oob_queries_are_solid_bedrock (g : Grid) (x y : Int) (p : ℚ)
    (h : isValidCoordinate x y = false) :
    getTileType g x y = .Bedrock ∧ isTileSolid g x y = true ∧
    mineTile g x y p = (none, g) := by
  refine ⟨?_, ?_, ?_⟩ <;> simp [getTileType, isTileSolid, mineTile, h]

/-- Witness for C8 at coordinate (-1, 0). -/
theorem oob_queries_are_solid_bedrock_witness :
    getTileType (fun _ _ => getTileProperties .Stone) (-1) 0 = .Bedrock ∧
    isTileSolid (fun _ _ => getTileProperties .Stone) (-1) 0 = true ∧
    mineTile (fun _ _ => getTileProperties .Stone) (-1) 0 5 =
      (none, fun _ _ => getTileProperties .Stone) :=
  oob_queries_are_solid_bedrock (fun _ _ => getTileProperties .Stone) (-1) 0 5 (by decide)

/-- C9: an ore is within mining range exactly when the squared distance
is at most `(range + radius)^2`; an ore at distance exactly
`range + radius` is mineable, and at any strictly greater distance it is
not. -/
theorem proximity_mining_boundary (posX posY radius pointX pointY range : ℝ)
    (hrange : 0 ≤ range) (hradius : 0 ≤ radius) :
    (isWithinRange posX posY radius pointX pointY range ↔
      (pointX - posX) * (pointX - posX) + (pointY - posY) * (pointY - posY) ≤
        (range + radius) ^ 2) ∧
    (Real.sqrt ((pointX - posX) * (pointX - posX) + (pointY - posY) * (pointY - posY)) =
        range + radius → isWithinRange posX posY radius pointX pointY range) ∧
    (range + radius <
        Real.sqrt ((pointX - posX) * (pointX - posX) + (pointY - posY) * (pointY - posY)) →
      ¬ isWithinRange posX posY radius pointX pointY range) := by
  have hsum : (0:ℝ) ≤ range + radius := add_nonneg hrange hradius
  refine ⟨?_, ?_, ?_⟩
  · simpa [isWithinRange] using Real.sqrt_le_left hsum
  · intro h
    simp only [isWithinRange]
    exact le_of_eq h
  · intro h hc
    simp only [isWithinRange] at hc
    exact absurd hc (not_le.mpr h)

/-- Witness for C9: player at the origin, ore at (3, 4) with radius 1,
mining range 4. -/
theorem proximity_mining_boundary_witness :
    isWithinRange 3 4 1 0 0 4 ↔
      ((0:ℝ) - 3) * (0 - 3) + ((0:ℝ) - 4) * (0 - 4) ≤ ((4:ℝ) + 1) ^ 2 :=
  (proximity_mining_boundary 3 4 1 0 0 4 zero_le_four zero_le_one).1

/-- C3: mining an in-bounds tile is a no-op returning no ore when the
tile is Air or Bedrock or the pickaxe is too weak; otherwise the tile
becomes Air (no other cell changes), an ore tile yields exactly one ore
of the matching kind delivered to the inventory (that count rises by
exactly 1, others untouched), and Stone or Dirt yields no ore. -/
theorem tile_mining_semantics (g : Grid) (inv : Inv) (x y : Int) (p : ℚ)
    (hv : isValidCoordinate x y = true) :
    ((g x y).type = .Air ∨ (g x y).type = .Bedrock →
      mineTile g x y p = (none, g) ∧ attemptMining g inv x y p = (g, inv)) ∧
    (p < (g x y).hardness * (1/2) →
      mineTile g x y p = (none, g) ∧ attemptMining g inv x y p = (g, inv)) ∧
    ((g x y).type ≠ .Air → (g x y).type ≠ .Bedrock →
      ¬ p < (g x y).hardness * (1/2) →
      ((mineTile g x y p).2 x y = getTileProperties .Air ∧
       (∀ x' y', ¬(x' = x ∧ y' = y) → (mineTile g x y p).2 x' y' = g x' y') ∧
       (attemptMining g inv x y p).1 x y = getTileProperties .Air ∧
       (∀ k : OreType, (g x y).type = tileOfOre k →
         (mineTile g x y p).1 = some k ∧
         (attemptMining g inv x y p).2 k = inv k + 1 ∧
         (∀ k', k' ≠ k → (attemptMining g inv x y p).2 k' = inv k')) ∧
       ((g x y).type = .Stone ∨ (g x y).type = .Dirt →
         (mineTile g x y p).1 = none ∧ (attemptMining g inv x y p).2 = inv))) := by
  refine ⟨?_, ?_, ?_⟩
  · intro hAB
    have hm : mineTile g x y p = (none, g) := by
      simp [mineTile, hv, hAB]
    rcases hAB with hA | hB
    · exact ⟨hm, by simp [attemptMining, getTileType, hv, hA]⟩
    · exact ⟨hm, by simp [attemptMining, getTileType, hv, hB]⟩
  · intro hp
    by_cases hA : (g x y).type = .Air
    · exact ⟨by simp [mineTile, hv, hA], by simp [attemptMining, getTileType, hv, hA]⟩
    by_cases hB : (g x y).type = .Bedrock
    · exact ⟨by simp [mineTile, hv, hB], by simp [attemptMining, getTileType, hv, hB]⟩
    have hm : mineTile g x y p = (none, g) := by
      simp only [mineTile]
      split_ifs with h1 h2 <;> rfl
    exact ⟨hm, by simp [attemptMining, getTileType, hv, hA, hB, hm]⟩
  · intro hA hB hp
    have hm : mineTile g x y p =
        (oreDrop (g x y).type, setTile g x y (getTileProperties .Air)) := by
      simp only [mineTile]
      split_ifs with h1 h2
      · exact absurd h1 (by simp [hv])
      · rcases h2 with h | h
        · exact absurd h hA
        · exact absurd h hB
      · rfl
    refine ⟨?_, ?_, ?_, ?_, ?_⟩
    · rw [hm]; exact setTile_self _ _ _ _
    · intro x' y' hne; rw [hm]; exact setTile_other _ _ _ _ _ _ hne
    · rcases ho : oreDrop (g x y).type with _ | k <;>
        simp [attemptMining, getTileType, hv, hA, hB, hm, ho, setTile_self]
    · intro k hk
      have ho : oreDrop (g x y).type = some k := by
        rw [hk]; cases k <;> rfl
      have ham : attemptMining g inv x y p =
          (setTile g x y (getTileProperties .Air), addOre inv k) := by
        simp [attemptMining, getTileType, hv, hA, hB, hm, ho]
      refine ⟨by rw [hm, ho], ?_, ?_⟩
      · rw [ham]; exact updateCount_self _ _ _
      · intro k' hk'; rw [ham]; exact updateCount_other _ _ _ _ hk'
    · intro hSD
      have ho : oreDrop (g x y).type = none := by
        rcases hSD with h | h <;> rw [h] <;> rfl
      exact ⟨by rw [hm, ho],
        by simp [attemptMining, getTileType, hv, hA, hB, hm, ho]⟩

/-- Witness for C3: mining an OreGold tile with the Golden Pickaxe's
power 7 yields one Gold delivered to an empty inventory. -/
theorem tile_mining_semantics_witness :
    (mineTile (fun _ _ => getTileProperties .OreGold) 1 2 7).1 = some .Gold ∧
    (mineTile (fun _ _ => getTileProperties .OreGold) 1 2 7).2 1 2 =
      getTileProperties .Air ∧
    (attemptMining (fun _ _ => getTileProperties .OreGold) (fun _ => 0) 1 2 7).2 .Gold =
      (fun _ => (0:Int)) OreType.Gold + 1 ∧
    (attemptMining (fun _ _ => getTileProperties .OreGold) (fun _ => 0) 1 2 7).2 .Copper =
      (fun _ => (0:Int)) OreType.Copper := by
  have h := (tile_mining_semantics (fun _ _ => getTileProperties .OreGold)
    (fun _ => 0) 1 2 7 (by decide)).2.2 (by decide) (by decide)
    (by simp [getTileProperties])
  have hk := h.2.2.2.1 .Gold (by decide)
  exact ⟨hk.1, h.1, hk.2.1, hk.2.2 .Copper (by decide)⟩

/-! ## Generation invariants (claim C4) -/

/-- A cell written by a guarded write is never an out-of-bounds cell. -/
theorem valid_ne_oob {x y x0 y0 : Int} (hv : isValidCoordinate x y = true)
    (ho : isValidCoordinate x0 y0 = false) : ¬(x0 = x ∧ y0 = y) := by
  rintro ⟨rfl, rfl⟩
  rw [hv] at ho
  cases ho

/-- Cave carving never touches a Bedrock cell. -/
theorem carveCell_bedrock (cx cy dy dx : Int) (s : GenState) (x0 y0 : Int)
    (h : (s.grid x0 y0).type = .Bedrock) :
    ((carveCell cx cy dy dx s).grid x0 y0).type = .Bedrock := by
  simp only [carveCell, Rng.nextFloat]
  split_ifs with h1 h2
  · by_cases hxy : x0 = cx + dx ∧ y0 = cy + dy
    · exfalso
      obtain ⟨rfl, rfl⟩ := hxy
      rcases Bool.and_eq_true_iff.mp h1 with ⟨_, hnb⟩
      rw [h] at hnb
      simp at hnb
    · simp only [setTile_other _ _ _ _ _ _ hxy]
      exact h
  · exact h
  · exact h

/-- Vein formation never touches a Bedrock cell (it only converts Stone
cells). -/
theorem veinCell_bedrock (ot : TileType) (x y dy dx : Int) (s : GenState)
    (x0 y0 : Int) (h : (s.grid x0 y0).type = .Bedrock) :
    ((veinCell ot x y dy dx s).grid x0 y0).type = .Bedrock := by
  simp only [veinCell, Rng.nextFloat]
  split_ifs with h1 h2
  · by_cases hxy : x0 = x + dx ∧ y0 = y + dy
    · exfalso
      obtain ⟨rfl, rfl⟩ := hxy
      rcases Bool.and_eq_true_iff.mp h1 with ⟨_, hst⟩
      rw [h] at hst
      simp at hst
    · simp only [setTile_other _ _ _ _ _ _ hxy]
      exact h
  · exact h
  · exact h

/-- Ore placement for one cell never touches a Bedrock cell (the seed
write requires the cell to hold Stone). -/
theorem placeOreCell_bedrock (ot : TileType) (q : ℚ) (minD y x : Int)
    (s : GenState) (x0 y0 : Int) (h : (s.grid x0 y0).type = .Bedrock) :
    ((placeOreCell ot q minD y x s).grid x0 y0).type = .Bedrock := by
  have hseed : ∀ r : Rng, (s.grid x y).type = .Stone →
      (((⟨setTile s.grid x y (getTileProperties ot), r⟩ : GenState).grid x0 y0).type
        = .Bedrock) := by
    intro r hst
    by_cases hxy : x0 = x ∧ y0 = y
    · exfalso
      obtain ⟨rfl, rfl⟩ := hxy
      rw [h] at hst
      cases hst
    · show ((setTile s.grid x y (getTileProperties ot)) x0 y0).type = .Bedrock
      rw [setTile_other _ _ _ _ _ _ hxy]
      exact h
  simp only [placeOreCell, Rng.nextFloat]
  split_ifs with h1 h2 h3
  · refine foldl_pres (fun s : GenState => (s.grid x0 y0).type = .Bedrock) _ _ ?_ _ (hseed _ h1)
    intro s dy _ hs
    exact foldl_pres (fun s : GenState => (s.grid x0 y0).type = .Bedrock) _ _
      (fun s dx _ hs => veinCell_bedrock _ _ _ _ _ _ _ _ hs) _ hs
  · exact hseed _ h1
  · exact h
  · exact h

/-- A whole carved room never touches a Bedrock cell. -/
theorem carveRoom_bedrock (cx cy : Int) (r : Nat) (s : GenState) (x0 y0 : Int)
    (h : (s.grid x0 y0).type = .Bedrock) :
    ((carveRoom cx cy r s).grid x0 y0).type = .Bedrock := by
  refine foldl_pres (fun s : GenState => (s.grid x0 y0).type = .Bedrock) _ _ ?_ s h
  intro s dy _ hs
  exact foldl_pres (fun s : GenState => (s.grid x0 y0).type = .Bedrock) _ _
    (fun s dx _ hs => carveCell_bedrock _ _ _ _ _ _ _ hs) _ hs

/-- One cave-walk step never touches a Bedrock cell. -/
theorem caveWalkStep_bedrock (st : Int × Int × GenState) (n : Nat) (x0 y0 : Int)
    (h : (st.2.2.grid x0 y0).type = .Bedrock) :
    (((caveWalkStep st n).2.2.grid x0 y0).type = .Bedrock) := by
  simp only [caveWalkStep, Rng.nextNat]
  exact carveRoom_bedrock _ _ _ _ _ _ h

/-- One cave system never touches a Bedrock cell. -/
theorem caveSystem_bedrock (s : GenState) (n : Nat) (x0 y0 : Int)
    (h : (s.grid x0 y0).type = .Bedrock) :
    (((caveSystem s n).grid x0 y0).type = .Bedrock) := by
  simp only [caveSystem, Rng.nextNat]
  exact foldl_pres (fun st : Int × Int × GenState => (st.2.2.grid x0 y0).type = .Bedrock)
    _ _ (fun st a _ hs => caveWalkStep_bedrock st a x0 y0 hs) _ h

/-- Cave generation never converts a Bedrock tile. -/
theorem generateCaves_bedrock (s : GenState) (x0 y0 : Int)
    (h : (s.grid x0 y0).type = .Bedrock) :
    (((generateCaves s).grid x0 y0).type = .Bedrock) := by
  simp only [generateCaves, Rng.nextNat]
  exact foldl_pres (fun s : GenState => (s.grid x0 y0).type = .Bedrock)
    _ _ (fun s a _ hs => caveSystem_bedrock s a x0 y0 hs) _ h

/-- Ore placement never converts a Bedrock tile. -/
theorem placeOres_bedrock (ot : TileType) (q : ℚ) (lo hi : Int) (s : GenState)
    (x0 y0 : Int) (h : (s.grid x0 y0).type = .Bedrock) :
    (((placeOres ot q lo hi s).grid x0 y0).type = .Bedrock) := by
  refine foldl_pres (fun s : GenState => (s.grid x0 y0).type = .Bedrock) _ _ ?_ s h
  intro s yy _ hs
  exact foldl_pres (fun s : GenState => (s.grid x0 y0).type = .Bedrock) _ _
    (fun s xx _ hs => placeOreCell_bedrock _ _ _ _ _ _ _ _ hs) _ hs

/-- In-range loop indices are valid coordinates. -/
theorem isValid_of_bounds {x y : Int} (hx0 : 0 ≤ x) (hx1 : x < 100)
    (hy0 : 0 ≤ y) (hy1 : y < 50) : isValidCoordinate x y = true := by
  simp only [isValidCoordinate, WORLD_WIDTH, WORLD_HEIGHT, Bool.and_eq_true,
    decide_eq_true_eq]
  omega

/-- Membership in `intRange n` gives the loop bounds. -/
theorem mem_intRange {n : Nat} {a : Int} (h : a ∈ intRange n) :
    0 ≤ a ∧ a < (n : Int) := by
  simp only [intRange, List.mem_map, List.mem_range] at h
  obtain ⟨i, hi', rfl⟩ := h
  omega

/-- Membership in the inclusive row range gives the loop bounds. -/
theorem mem_rowRange {lo hi y : Int} (h : y ∈ rowRange lo hi) :
    lo ≤ y ∧ y ≤ hi := by
  simp only [rowRange, List.mem_map, List.mem_range] at h
  obtain ⟨i, hi', rfl⟩ := h
  omega

/-- Cave carving never writes outside the world bounds. -/
theorem carveCell_oob (cx cy dy dx : Int) (s : GenState) (x0 y0 : Int)
    (ho : isValidCoordinate x0 y0 = false) :
    (carveCell cx cy dy dx s).grid x0 y0 = s.grid x0 y0 := by
  simp only [carveCell, Rng.nextFloat]
  split_ifs with h1 h2
  · rcases Bool.and_eq_true_iff.mp h1 with ⟨hv, _⟩
    simp only [setTile_other _ _ _ _ _ _ (valid_ne_oob hv ho)]
  · rfl
  · rfl

/-- Vein formation never writes outside the world bounds. -/
theorem veinCell_oob (ot : TileType) (x y dy dx : Int) (s : GenState)
    (x0 y0 : Int) (ho : isValidCoordinate x0 y0 = false) :
    (veinCell ot x y dy dx s).grid x0 y0 = s.grid x0 y0 := by
  simp only [veinCell, Rng.nextFloat]
  split_ifs with h1 h2
  · rcases Bool.and_eq_true_iff.mp h1 with ⟨hv, _⟩
    simp only [setTile_other _ _ _ _ _ _ (valid_ne_oob hv ho)]
  · rfl
  · rfl

/-- The layered fill never writes outside the world bounds. -/
theorem fillCell_oob (y x : Int) (s : GenState) (x0 y0 : Int)
    (hx0 : 0 ≤ x) (hx1 : x < 100) (hy0 : 0 ≤ y) (hy1 : y < 50)
    (ho : isValidCoordinate x0 y0 = false) :
    (fillCell y x s).grid x0 y0 = s.grid x0 y0 := by
  have hne : ¬(x0 = x ∧ y0 = y) :=
    valid_ne_oob (isValid_of_bounds hx0 hx1 hy0 hy1) ho
  simp only [fillCell, Rng.nextFloat]
  split_ifs <;> simp only [setTile_other _ _ _ _ _ _ hne]

/-- One filled row leaves out-of-bounds cells unchanged. -/
theorem fillRow_oob (y : Int) (s : GenState) (x0 y0 : Int)
    (hy0 : 0 ≤ y) (hy1 : y < 50) (ho : isValidCoordinate x0 y0 = false) :
    (fillRow y s).grid x0 y0 = s.grid x0 y0 := by
  refine foldl_pres (fun t : GenState => t.grid x0 y0 = s.grid x0 y0) _ _ ?_ s rfl
  intro t a ha ht
  have hb := mem_intRange ha
  exact (fillCell_oob y a t x0 y0 hb.1 hb.2 hy0 hy1 ho).trans ht

/-- The whole layered fill leaves out-of-bounds cells unchanged. -/
theorem layeredFill_oob (s : GenState) (x0 y0 : Int)
    (ho : isValidCoordinate x0 y0 = false) :
    (layeredFill s).grid x0 y0 = s.grid x0 y0 := by
  refine foldl_pres (fun t : GenState => t.grid x0 y0 = s.grid x0 y0) _ _ ?_ s rfl
  intro t a ha ht
  have hb := mem_intRange ha
  exact (fillRow_oob a t x0 y0 hb.1 hb.2 ho).trans ht

/-- A carved room leaves out-of-bounds cells unchanged. -/
theorem carveRoom_oob (cx cy : Int) (r : Nat) (s : GenState) (x0 y0 : Int)
    (ho : isValidCoordinate x0 y0 = false) :
    (carveRoom cx cy r s).grid x0 y0 = s.grid x0 y0 := by
  refine foldl_pres (fun t : GenState => t.grid x0 y0 = s.grid x0 y0) _ _ ?_ s rfl
  intro t dy _ ht
  refine foldl_pres (fun t : GenState => t.grid x0 y0 = s.grid x0 y0) _ _ ?_ t ht
  intro t' dx _ ht'
  exact (carveCell_oob _ _ _ _ t' _ _ ho).trans ht'

/-- One cave-walk step leaves out-of-bounds cells unchanged. -/
theorem caveWalkStep_oob (st : Int × Int × GenState) (n : Nat) (x0 y0 : Int)
    (ho : isValidCoordinate x0 y0 = false) :
    (caveWalkStep st n).2.2.grid x0 y0 = st.2.2.grid x0 y0 := by
  simp only [caveWalkStep, Rng.nextNat]
  exact carveRoom_oob _ _ _ _ _ _ ho

/-- One cave system leaves out-of-bounds cells unchanged. -/
theorem caveSystem_oob (s : GenState) (n : Nat) (x0 y0 : Int)
    (ho : isValidCoordinate x0 y0 = false) :
    (caveSystem s n).grid x0 y0 = s.grid x0 y0 := by
  simp only [caveSystem, Rng.nextNat]
  refine foldl_pres
    (fun st : Int × Int × GenState => st.2.2.grid x0 y0 = s.grid x0 y0) _ _ ?_ _ rfl
  intro st a _ hst
  exact (caveWalkStep_oob st a x0 y0 ho).trans hst

/-- Cave generation leaves out-of-bounds cells unchanged. -/
theorem generateCaves_oob (s : GenState) (x0 y0 : Int)
    (ho : isValidCoordinate x0 y0 = false) :
    (generateCaves s).grid x0 y0 = s.grid x0 y0 := by
  simp only [generateCaves, Rng.nextNat]
  refine foldl_pres (fun t : GenState => t.grid x0 y0 = s.grid x0 y0) _ _ ?_ _ rfl
  intro t a _ ht
  exact (caveSystem_oob t a x0 y0 ho).trans ht

/-- Ore placement for one in-range cell leaves out-of-bounds cells
unchanged. -/
theorem placeOreCell_oob (ot : TileType) (q : ℚ) (minD y x : Int)
    (s : GenState) (x0 y0 : Int)
    (hx0 : 0 ≤ x) (hx1 : x < 100) (hy0 : 0 ≤ y) (hy1 : y < 50)
    (ho : isValidCoordinate x0 y0 = false) :
    (placeOreCell ot q minD y x s).grid x0 y0 = s.grid x0 y0 := by
  have hne : ¬(x0 = x ∧ y0 = y) :=
    valid_ne_oob (isValid_of_bounds hx0 hx1 hy0 hy1) ho
  simp only [placeOreCell, Rng.nextFloat]
  split_ifs with h1 h2 h3
  · refine foldl_pres (fun t : GenState => t.grid x0 y0 = s.grid x0 y0) _ _ ?_ _ ?_
    · intro t dy _ ht
      refine foldl_pres (fun t : GenState => t.grid x0 y0 = s.grid x0 y0) _ _ ?_ t ht
      intro t' dx _ ht'
      exact (veinCell_oob _ _ _ _ _ t' _ _ ho).trans ht'
    · simp only [setTile_other _ _ _ _ _ _ hne]
  · simp only [setTile_other _ _ _ _ _ _ hne]
  · rfl
  · rfl

/-- An ore pass with in-range depth band leaves out-of-bounds cells
unchanged. -/
theorem placeOres_oob (ot : TileType) (q : ℚ) (lo hi : Int) (s : GenState)
    (x0 y0 : Int) (hlo : 0 ≤ lo) (hhi : hi < 50)
    (ho : isValidCoordinate x0 y0 = false) :
    (placeOres ot q lo hi s).grid x0 y0 = s.grid x0 y0 := by
  refine foldl_pres (fun t : GenState => t.grid x0 y0 = s.grid x0 y0) _ _ ?_ s rfl
  intro t yy hyy ht
  have hb := mem_rowRange hyy
  refine foldl_pres (fun t' : GenState => t'.grid x0 y0 = s.grid x0 y0) _ _ ?_ t ht
  intro t' xx hxx ht'
  have hxb := mem_intRange hxx
  exact (placeOreCell_oob ot q lo yy xx t' x0 y0 hxb.1 hxb.2
    (by omega) (by omega) ho).trans ht'

/-- The layered fill writes only the cell it is called on. -/
theorem fillCell_grid_other (y x : Int) (s : GenState) (x0 y0 : Int)
    (h : ¬(x0 = x ∧ y0 = y)) :
    (fillCell y x s).grid x0 y0 = s.grid x0 y0 := by
  simp only [fillCell, Rng.nextFloat]
  split_ifs <;> simp only [setTile_other _ _ _ _ _ _ h]

/-- In the bottom two rows the layered fill writes Bedrock. -/
theorem fillCell_bottom (y x : Int) (s : GenState)
    (hy : WORLD_HEIGHT - 2 ≤ y) :
    (fillCell y x s).grid x y = getTileProperties .Bedrock := by
  have hy' : (48 : Int) ≤ y := by
    simpa [WORLD_HEIGHT] using hy
  have h3 : ¬ y < 3 := by omega
  have h8 : ¬ y < 8 := by omega
  have hW : ¬ y < WORLD_HEIGHT - 2 := by
    simp only [WORLD_HEIGHT]
    omega
  simp only [fillCell, Rng.nextFloat, if_neg h3, if_neg h8, if_neg hW]
  exact setTile_self _ _ _ _

/-- The layered fill preserves Bedrock in the bottom two rows. -/
theorem fillCell_bedrock_pres (y x : Int) (s : GenState) (x0 y0 : Int)
    (hy0 : WORLD_HEIGHT - 2 ≤ y0) (h : (s.grid x0 y0).type = .Bedrock) :
    ((fillCell y x s).grid x0 y0).type = .Bedrock := by
  by_cases hxy : x0 = x ∧ y0 = y
  · obtain ⟨rfl, rfl⟩ := hxy
    rw [fillCell_bottom y0 x0 s hy0]
    rfl
  · rw [fillCell_grid_other _ _ _ _ _ hxy]
    exact h

/-- One filled row preserves Bedrock in the bottom two rows. -/
theorem fillRow_bedrock_pres (yr : Int) (s : GenState) (x0 y0 : Int)
    (hy0 : WORLD_HEIGHT - 2 ≤ y0) (h : (s.grid x0 y0).type = .Bedrock) :
    ((fillRow yr s).grid x0 y0).type = .Bedrock := by
  refine foldl_pres (fun t : GenState => (t.grid x0 y0).type = .Bedrock) _ _ ?_ s h
  intro t a _ ht
  exact fillCell_bedrock_pres yr a t x0 y0 hy0 ht

/-- Filling the row of a bottom cell makes that cell Bedrock. -/
theorem fillRow_bottom (y0 : Int) (s : GenState) (x0 : Int)
    (hx0 : 0 ≤ x0) (hx1 : x0 < 100) (hy0 : WORLD_HEIGHT - 2 ≤ y0) :
    ((fillRow y0 s).grid x0 y0).type = .Bedrock := by
  have hcast : ((x0.toNat : Nat) : Int) = x0 := Int.toNat_of_nonneg hx0
  refine foldl_estab (fun t : GenState => (t.grid x0 y0).type = .Bedrock)
    (fun s x => fillCell y0 x s) ((x0.toNat : Nat) : Int) ?_ ?_ _ s ?_
  · intro t
    show ((fillCell y0 ((x0.toNat : Nat) : Int) t).grid x0 y0).type = .Bedrock
    rw [hcast, fillCell_bottom y0 x0 t hy0]
    rfl
  · intro t a ht
    exact fillCell_bedrock_pres y0 a t x0 y0 hy0 ht
  · simp only [intRange, List.mem_map, List.mem_range]
    exact ⟨x0.toNat, by omega, rfl⟩

/-- After the layered fill the bottom two rows hold Bedrock. -/
theorem layeredFill_bottom (s : GenState) (x0 y0 : Int)
    (hx0 : 0 ≤ x0) (hx1 : x0 < 100)
    (hy0 : WORLD_HEIGHT - 2 ≤ y0) (hy1 : y0 < WORLD_HEIGHT) :
    ((layeredFill s).grid x0 y0).type = .Bedrock := by
  have hy0' : (0 : Int) ≤ y0 := by
    have : (48 : Int) ≤ y0 := by simpa [WORLD_HEIGHT] using hy0
    omega
  have hy1' : y0 < 50 := by simpa [WORLD_HEIGHT] using hy1
  have hcast : ((y0.toNat : Nat) : Int) = y0 := Int.toNat_of_nonneg hy0'
  refine foldl_estab (fun t : GenState => (t.grid x0 y0).type = .Bedrock)
    (fun s y => fillRow y s) ((y0.toNat : Nat) : Int) ?_ ?_ _ s ?_
  · intro t
    show ((fillRow ((y0.toNat : Nat) : Int) t).grid x0 y0).type = .Bedrock
    rw [hcast]
    exact fillRow_bottom y0 t x0 hx0 hx1 hy0
  · intro t a ht
    exact fillRow_bedrock_pres a t x0 y0 hy0 ht
  · simp only [intRange, List.mem_map, List.mem_range]
    exact ⟨y0.toNat, by omega, rfl⟩

/-- Embeds `generateTerrain` unfolded to its four passes. -/
theorem generateTerrain_eq (s0 : GenState) : generateTerrain s0 =
    placeOres .OreDiamond (1/125) 25 (WORLD_HEIGHT - 5)
    (placeOres .OreGold (3/100) 15 (WORLD_HEIGHT - 5)
    (placeOres .OreIron (2/25) 10 (WORLD_HEIGHT - 5)
    (placeOres .OreCopper (3/20) 5 (WORLD_HEIGHT - 5)
    (generateCaves (layeredFill s0))))) := rfl

/-- C4: after terrain generation, for every random stream, every cell of
the bottom two rows holds Bedrock, every out-of-bounds cell is untouched
by generation (all writes are in-bounds), and neither cave carving nor
ore placement ever converts a Bedrock tile. -/
theorem world_generation_invariants (s0 s : GenState) (ot : TileType) (q : ℚ)
    (lo hi x y : Int) (hx0 : 0 ≤ x) (hx1 : x < WORLD_WIDTH)
    (hy0 : WORLD_HEIGHT - 2 ≤ y) (hy1 : y < WORLD_HEIGHT) :
    ((generateTerrain s0).grid x y).type = .Bedrock ∧
    (∀ x' y', isValidCoordinate x' y' = false →
      (generateTerrain s0).grid x' y' = s0.grid x' y') ∧
    (∀ x' y', (s.grid x' y').type = .Bedrock →
      ((generateCaves s).grid x' y').type = .Bedrock) ∧
    (∀ x' y', (s.grid x' y').type = .Bedrock →
      ((placeOres ot q lo hi s).grid x' y').type = .Bedrock) := by
  have hx1' : x < 100 := by simpa [WORLD_WIDTH] using hx1
  refine ⟨?_, ?_, ?_, ?_⟩
  · rw [generateTerrain_eq]
    apply placeOres_bedrock
    apply placeOres_bedrock
    apply placeOres_bedrock
    apply placeOres_bedrock
    apply generateCaves_bedrock
    exact layeredFill_bottom s0 x y hx0 hx1' hy0 hy1
  · intro x' y' ho
    rw [generateTerrain_eq]
    rw [placeOres_oob _ _ _ _ _ _ _ (by decide) (by decide) ho]
    rw [placeOres_oob _ _ _ _ _ _ _ (by decide) (by decide) ho]
    rw [placeOres_oob _ _ _ _ _ _ _ (by decide) (by decide) ho]
    rw [placeOres_oob _ _ _ _ _ _ _ (by decide) (by decide) ho]
    rw [generateCaves_oob _ _ _ ho]
    exact layeredFill_oob s0 x' y' ho
  · intro x' y' hb
    exact generateCaves_bedrock s x' y' hb
  · intro x' y' hb
    exact placeOres_bedrock ot q lo hi s x' y' hb

/-- Witness for C4 with the zero random stream, at cell (0, 48) and an
out-of-bounds probe at (-1, -1). -/
theorem world_generation_invariants_witness :
    ((generateTerrain ⟨fun _ _ => getTileProperties .Air,
        ⟨fun _ => 0, fun _ => 0, 0, 0⟩⟩).grid 0 48).type = .Bedrock ∧
    (generateTerrain ⟨fun _ _ => getTileProperties .Air,
        ⟨fun _ => 0, fun _ => 0, 0, 0⟩⟩).grid (-1) (-1) =
      (fun _ _ => getTileProperties .Air : Grid) (-1) (-1) := by
  have h := world_generation_invariants
    ⟨fun _ _ => getTileProperties .Air, ⟨fun _ => 0, fun _ => 0, 0, 0⟩⟩
    ⟨fun _ _ => getTileProperties .Air, ⟨fun _ => 0, fun _ => 0, 0, 0⟩⟩
    .OreCopper (3/20) 5 45 0 48 (by decide) (by decide) (by decide) (by decide)
  exact ⟨h.1, h.2.1 (-1) (-1) (by decide)⟩

end MiningGame
